import Mathlib

/-!
Shallow embedding of the eth/66 protocol handler of polygon-cli (package p2p):
the per-connection state (pending requests, request-id counter, oldest header),
the shared head block and message counters, the status exchange, the dispatch
loop and every message handler.  Block hashes, node identities, transactions and
block bodies are abstracted as natural numbers; total difficulty is an Int
(big.Int in the source); block numbers are Nat.  Transport sends and database
queries are external collaborators: send outcomes enter as Bool flags, the
database as a record of capability flags and an existence predicate, and every
observable effect (sends, database writes, the claim-relevant log lines) is
recorded in an action trace.
-/

set_option linter.unusedVariables false

namespace PolygonP2P

/-- Block hashes, node ids, transactions and body payloads are abstracted as
natural numbers; only equality matters to the protocol logic. -/
abbrev Hash := Nat

/-- Mirrors the Go struct HeadBlock: head data for the status message. -/
structure HeadBlock where
  hash : Hash
  totalDifficulty : Int
  number : Nat
deriving DecidableEq, Repr

/-- Mirrors the Go struct request: a pending (request id, block hash) pair. -/
structure Request where
  requestID : Nat
  hash : Hash
deriving DecidableEq, Repr

/-- The parts of go-ethereum types.Header the handler reads: number, parent
hash, and the block hash computed by Header.Hash(). -/
structure Header where
  number : Nat
  parentHash : Hash
  hash : Hash
deriving DecidableEq, Repr

/-- Mirrors the MessageCount struct: per-category message tallies. -/
structure MessageCount where
  blocks : Nat
  blockHashes : Nat
  blockHeaderRequests : Nat
  blockHeaders : Nat
  blockBodiesRequests : Nat
  blockBodies : Nat
  transactionHashes : Nat
  transactionRequests : Nat
  transactions : Nat
deriving DecidableEq, Repr

/-- The database collaborator: capability queries and the block-existence
query, as used by this file (interface database.Database). -/
structure Database where
  shouldWriteBlocks : Bool
  shouldWriteBlockEvents : Bool
  shouldWriteTransactions : Bool
  shouldWriteTransactionEvents : Bool
  hasBlock : Hash → Bool

/-- Mirrors the Go struct conn: per-connection state plus references to the
shared head and counters (modelled by value: one connection at a time). -/
structure Conn where
  db : Database
  head : HeadBlock
  count : MessageCount
  requests : List Request
  requestNum : Nat
  oldestBlock : Option Header

/-- Observable effects of the handlers: sends to the peer, database writes,
and the claim-relevant log lines. -/
inductive Action where
  | sendGetBlockHeaders (originHash : Hash) (amount : Nat)
  | sendGetBlockBodies (requestId : Nat) (hashes : List Hash)
  | sendBlockHeadersResp (requestId : Nat)
  | sendBlockBodiesResp (requestId : Nat)
  | sendPooledTransactionsResp (requestId : Nat)
  | sendReceiptsResp (requestId : Nat)
  | sendGetPooledTransactions (hashes : List Hash)
  | fetchParentLog (hash : Hash) (number : Nat)
  | warnNoHash
  | writeBlockHashes (hashes : List Hash)
  | writeTransactions (txs : List Nat)
  | writeBlockHeaders (headers : List Header)
  | writeBlockBody (body : Nat) (hash : Hash)
  | writeBlock (hash : Hash) (td : Int)
  | publishPeer
deriving DecidableEq, Repr

/-- Error outcomes a handler or the connection loop can produce; any of them
drops the connection in the source. -/
inductive Err where
  | sendErr
  | readErr
  | wrongCode
  | decodeErr
  | uselessPeer
  | discardErr
deriving DecidableEq, Repr

/-- Result of one handler or loop step: the new connection state, the emitted
action trace, and the error returned to the dispatch loop (none = nil). -/
structure StepResult where
  conn : Conn
  trace : List Action
  err : Option Err

/-- Mirrors conn.getBlockData: send a GetBlockHeaders request (amount 1) for
the hash; on success allocate the next request id, append the pending entry,
and send the GetBlockBodies request tagged with that id.  The two Bool flags
are the transport outcomes of the two sends. -/
def getBlockData (c : Conn) (hash : Hash) (hOk bOk : Bool) : StepResult :=
  if !hOk then ⟨c, [], some .sendErr⟩
  else
    let rid := c.requestNum + 1
    let c' : Conn := { c with requestNum := rid, requests := c.requests ++ [⟨rid, hash⟩] }
    if !bOk then ⟨c', [.sendGetBlockHeaders hash 1], some .sendErr⟩
    else ⟨c', [.sendGetBlockHeaders hash 1, .sendGetBlockBodies rid [hash]], none⟩

/-- Mirrors conn.getParentBlock: the backfill policy.  Stop unless the
database wants blocks and block events; on the very first header record it as
the oldest block (the floor); stop if the parent is already stored or the
header is not strictly above the floor; otherwise log the parent fetch (the
source logs header.Number - 1 as the number being fetched) and request the
parent block data. -/
def getParentBlock (c : Conn) (header : Header) (hOk bOk : Bool) : StepResult :=
  if !c.db.shouldWriteBlocks || !c.db.shouldWriteBlockEvents then ⟨c, [], none⟩
  else
    match c.oldestBlock with
    | none => ⟨{ c with oldestBlock := some header }, [], none⟩
    | some oldest =>
      if c.db.hasBlock header.parentHash || decide (header.number ≤ oldest.number) then
        ⟨c, [], none⟩
      else
        let r := getBlockData c header.parentHash hOk bOk
        ⟨r.conn, .fetchParentLog header.parentHash (header.number - 1) :: r.trace, r.err⟩

/-- The front-to-back scan of conn.requests in handleBlockBodies: find the
first entry whose id matches, return its hash and the list with exactly that
entry removed; if none matches return none and the list unchanged. -/
def removeRequest : List Request → Nat → Option Hash × List Request
  | [], _ => (none, [])
  | r :: rs, rid =>
    if r.requestID = rid then (some r.hash, rs)
    else
      let p := removeRequest rs rid
      (p.1, r :: p.2)

/-- Mirrors eth.BlockBodiesPacket66: a request id and the returned bodies. -/
structure BlockBodiesPacket where
  requestId : Nat
  bodies : List Nat
deriving DecidableEq, Repr

/-- Mirrors conn.handleBlockBodies: an empty payload is ignored; otherwise
count the bodies, scan the pending requests for the response id, and either
write the first body under the recorded hash (removing that one entry) or log
a warning and drop the body.  Both paths return nil. -/
def handleBlockBodies (c : Conn) (packet : BlockBodiesPacket) : StepResult :=
  match packet.bodies with
  | [] => ⟨c, [], none⟩
  | body :: _ =>
    let c1 : Conn :=
      { c with count := { c.count with blockBodies := c.count.blockBodies + packet.bodies.length } }
    match removeRequest c1.requests packet.requestId with
    | (none, _) => ⟨c1, [.warnNoHash], none⟩
    | (some h, rest) => ⟨{ c1 with requests := rest }, [.writeBlockBody body h], none⟩

/-- Mirrors eth.NewBlockPacket as used here: the block header data and the
reported total difficulty. -/
structure NewBlockPacket where
  header : Header
  td : Int
deriving DecidableEq, Repr

/-- Mirrors conn.handleNewBlock: count the block, replace the shared head
when the candidate number and total difficulty both strictly exceed the
current head (Cmp = 1 on big.Int), run the backfill policy on the header,
then write the block. -/
def handleNewBlock (c : Conn) (block : NewBlockPacket) (hOk bOk : Bool) : StepResult :=
  let c1 : Conn := { c with count := { c.count with blocks := c.count.blocks + 1 } }
  let c2 : Conn :=
    if c1.head.number < block.header.number ∧ c1.head.totalDifficulty < block.td then
      { c1 with head := ⟨block.header.hash, block.td, block.header.number⟩ }
    else c1
  let r := getParentBlock c2 block.header hOk bOk
  match r.err with
  | some e => ⟨r.conn, r.trace, some e⟩
  | none => ⟨r.conn, r.trace ++ [.writeBlock block.header.hash block.td], none⟩

/-- The per-hash loop of handleNewBlockHashes: accumulate the announced
hashes, requesting block data for each; stop at the first failed request.
Flags are consumed one pair per hash. -/
def newBlockHashesLoop (c : Conn) :
    List (Hash × Nat) → List (Bool × Bool) → Conn × List Action × List Hash × Option Err
  | [], _ => (c, [], [], none)
  | (h, _) :: rest, flags =>
    let f := flags.headD (true, true)
    let r := getBlockData c h f.1 f.2
    match r.err with
    | some e => (r.conn, r.trace, [h], some e)
    | none =>
      let q := newBlockHashesLoop r.conn rest flags.tail
      (q.1, r.trace ++ q.2.1, h :: q.2.2.1, q.2.2.2)

/-- Mirrors conn.handleNewBlockHashes: count the announced hashes, fetch the
block data of each, and on full success write the hashes to the database. -/
def handleNewBlockHashes (c : Conn) (packet : List (Hash × Nat))
    (flags : List (Bool × Bool)) : StepResult :=
  let c1 : Conn :=
    { c with count := { c.count with blockHashes := c.count.blockHashes + packet.length } }
  let q := newBlockHashesLoop c1 packet flags
  match q.2.2.2 with
  | some e => ⟨q.1, q.2.1, some e⟩
  | none => ⟨q.1, q.2.1 ++ [.writeBlockHashes q.2.2.1], none⟩

/-- Mirrors conn.handleTransactions: count and write the transactions. -/
def handleTransactions (c : Conn) (txs : List Nat) : StepResult :=
  let c1 : Conn :=
    { c with count := { c.count with transactions := c.count.transactions + txs.length } }
  ⟨c1, [.writeTransactions txs], none⟩

/-- Mirrors conn.handleGetBlockHeaders: count one header request and answer
with an empty BlockHeaders response carrying the same request id. -/
def handleGetBlockHeaders (c : Conn) (requestId : Nat) (sendOk : Bool) : StepResult :=
  let c1 : Conn :=
    { c with count := { c.count with blockHeaderRequests := c.count.blockHeaderRequests + 1 } }
  if sendOk then ⟨c1, [.sendBlockHeadersResp requestId], none⟩
  else ⟨c1, [], some .sendErr⟩

/-- The per-header loop of handleBlockHeaders: run the backfill policy on
each header, stopping at the first error. -/
def blockHeadersLoop (c : Conn) :
    List Header → List (Bool × Bool) → Conn × List Action × Option Err
  | [], _ => (c, [], none)
  | hd :: rest, flags =>
    let f := flags.headD (true, true)
    let r := getParentBlock c hd f.1 f.2
    match r.err with
    | some e => (r.conn, r.trace, some e)
    | none =>
      let q := blockHeadersLoop r.conn rest flags.tail
      (q.1, r.trace ++ q.2.1, q.2.2)

/-- Mirrors conn.handleBlockHeaders: count the headers, run the backfill
policy on each, and on success write the headers to the database. -/
def handleBlockHeaders (c : Conn) (headers : List Header)
    (flags : List (Bool × Bool)) : StepResult :=
  let c1 : Conn :=
    { c with count := { c.count with blockHeaders := c.count.blockHeaders + headers.length } }
  let q := blockHeadersLoop c1 headers flags
  match q.2.2 with
  | some e => ⟨q.1, q.2.1, some e⟩
  | none => ⟨q.1, q.2.1 ++ [.writeBlockHeaders headers], none⟩

/-- Mirrors conn.handleGetBlockBodies: count the requested bodies and answer
with an empty BlockBodies response carrying the same request id. -/
def handleGetBlockBodies (c : Conn) (requestId : Nat) (hashes : List Hash)
    (sendOk : Bool) : StepResult :=
  let c1 : Conn :=
    { c with count :=
        { c.count with blockBodiesRequests := c.count.blockBodiesRequests + hashes.length } }
  if sendOk then ⟨c1, [.sendBlockBodiesResp requestId], none⟩
  else ⟨c1, [], some .sendErr⟩

/-- Mirrors conn.handleNewPooledTransactionHashes: count the hashes; when the
database wants transactions and transaction events, request the pooled
transactions. -/
def handleNewPooledTransactionHashes (c : Conn) (hashes : List Hash)
    (sendOk : Bool) : StepResult :=
  let c1 : Conn :=
    { c with count :=
        { c.count with transactionHashes := c.count.transactionHashes + hashes.length } }
  if !c1.db.shouldWriteTransactions || !c1.db.shouldWriteTransactionEvents then
    ⟨c1, [], none⟩
  else if sendOk then ⟨c1, [.sendGetPooledTransactions hashes], none⟩
  else ⟨c1, [], some .sendErr⟩

/-- Mirrors conn.handleGetPooledTransactions: count the requested
transactions and answer with an empty response carrying the request id. -/
def handleGetPooledTransactions (c : Conn) (requestId : Nat) (hashes : List Hash)
    (sendOk : Bool) : StepResult :=
  let c1 : Conn :=
    { c with count :=
        { c.count with transactionRequests := c.count.transactionRequests + hashes.length } }
  if sendOk then ⟨c1, [.sendPooledTransactionsResp requestId], none⟩
  else ⟨c1, [], some .sendErr⟩

/-- Mirrors conn.handlePooledTransactions: count and write the returned
transactions. -/
def handlePooledTransactions (c : Conn) (requestId : Nat) (txs : List Nat) : StepResult :=
  let c1 : Conn :=
    { c with count := { c.count with transactions := c.count.transactions + txs.length } }
  ⟨c1, [.writeTransactions txs], none⟩

/-- Mirrors conn.handleGetReceipts: answer with an empty Receipts response
carrying the request id (no counter is touched). -/
def handleGetReceipts (c : Conn) (requestId : Nat) (sendOk : Bool) : StepResult :=
  if sendOk then ⟨c, [.sendReceiptsResp requestId], none⟩
  else ⟨c, [], some .sendErr⟩

/-- An inbound message after decoding, together with the environment choices
its handler consumes (send outcomes, per-item send flags); a failed decode of
any message is represented by decodeFailure, and a message code with no
registered handler by unknownCode. -/
inductive DecodedMsg where
  | newBlockHashes (packet : List (Hash × Nat)) (flags : List (Bool × Bool))
  | transactions (txs : List Nat)
  | getBlockHeadersReq (requestId : Nat) (sendOk : Bool)
  | blockHeaders (requestId : Nat) (headers : List Header) (flags : List (Bool × Bool))
  | getBlockBodiesReq (requestId : Nat) (hashes : List Hash) (sendOk : Bool)
  | blockBodies (packet : BlockBodiesPacket)
  | newBlock (packet : NewBlockPacket) (hOk bOk : Bool)
  | newPooledTransactionHashes (hashes : List Hash) (sendOk : Bool)
  | getPooledTransactionsReq (requestId : Nat) (hashes : List Hash) (sendOk : Bool)
  | pooledTransactions (requestId : Nat) (txs : List Nat)
  | getReceiptsReq (requestId : Nat) (sendOk : Bool)
  | unknownCode (code : Nat)
  | decodeFailure

/-- The switch on msg.Code in the Run loop: route each decoded message to its
handler; unknown codes are only logged (no error, no state change). -/
def dispatch (c : Conn) : DecodedMsg → StepResult
  | .newBlockHashes packet flags => handleNewBlockHashes c packet flags
  | .transactions txs => handleTransactions c txs
  | .getBlockHeadersReq rid sendOk => handleGetBlockHeaders c rid sendOk
  | .blockHeaders rid headers flags => handleBlockHeaders c headers flags
  | .getBlockBodiesReq rid hashes sendOk => handleGetBlockBodies c rid hashes sendOk
  | .blockBodies packet => handleBlockBodies c packet
  | .newBlock packet hOk bOk => handleNewBlock c packet hOk bOk
  | .newPooledTransactionHashes hashes sendOk => handleNewPooledTransactionHashes c hashes sendOk
  | .getPooledTransactionsReq rid hashes sendOk => handleGetPooledTransactions c rid hashes sendOk
  | .pooledTransactions rid txs => handlePooledTransactions c rid txs
  | .getReceiptsReq rid sendOk => handleGetReceipts c rid sendOk
  | .unknownCode _ => ⟨c, [], none⟩
  | .decodeFailure => ⟨c, [], some .decodeErr⟩

/-- One event observed by the dispatch loop: either the blocking read fails,
or a message arrives (with the outcome of the final msg.Discard call). -/
inductive LoopEvent where
  | readFailure
  | message (m : DecodedMsg) (discardOk : Bool)

/-- The message loop of Run: read, dispatch, discard; any read, handler or
discard error terminates the connection.  A finite event script models the
observed prefix of the infinite loop. -/
def dispatchLoop (c : Conn) : List LoopEvent → StepResult
  | [] => ⟨c, [], none⟩
  | .readFailure :: _ => ⟨c, [], some .readErr⟩
  | .message m discardOk :: rest =>
    let r := dispatch c m
    match r.err with
    | some e => ⟨r.conn, r.trace, some e⟩
    | none =>
      if !discardOk then ⟨r.conn, r.trace, some .discardErr⟩
      else
        let q := dispatchLoop r.conn rest
        ⟨q.conn, r.trace ++ q.trace, q.err⟩

/-- Mirrors eth.StatusPacket. -/
structure StatusPacket where
  protocolVersion : Nat
  networkID : Nat
  genesis : Hash
  forkID : Nat
  head : Hash
  td : Int
deriving DecidableEq, Repr

/-- Mirrors conn.statusExchange: send the local status packet, read the
reply, require the status message code, decode, and reject a peer whose
network id differs (DiscUselessPeer).  The read is modelled as an optional
pair of the received code and the decode result. -/
def statusExchange (packet : StatusPacket) (sendOk : Bool)
    (readMsg : Option (Nat × Option StatusPacket)) : Except Err StatusPacket :=
  if !sendOk then .error .sendErr
  else
    match readMsg with
    | none => .error .readErr
    | some (code, decoded) =>
      if code ≠ 0 then .error .wrongCode
      else
        match decoded with
        | none => .error .decodeErr
        | some status =>
          if status.networkID ≠ packet.networkID then .error .uselessPeer
          else .ok status

/-- Mirrors Eth66ProtocolOptions as used by the Run closure; the fork id
computation (forkid.NewID over the genesis configuration, applied to the head
number) is an external collaborator and enters as a function. -/
structure Eth66ProtocolOptions where
  db : Database
  genesisHash : Hash
  networkID : Nat
  count : MessageCount
  head : HeadBlock
  forkIdOf : Nat → Nat

/-- The conn literal built at the top of the Run closure: empty request list,
request counter 0, no oldest block, references to the shared state. -/
def initConn (opts : Eth66ProtocolOptions) : Conn :=
  { db := opts.db, head := opts.head, count := opts.count,
    requests := [], requestNum := 0, oldestBlock := none }

/-- The local status packet the Run closure builds under the head read lock:
protocol version 66, the session network id and genesis hash, the fork id
derived from the head number, and the head hash and total difficulty. -/
def localStatus (opts : Eth66ProtocolOptions) : StatusPacket :=
  ⟨66, opts.networkID, opts.genesisHash, opts.forkIdOf opts.head.number,
    opts.head.hash, opts.head.totalDifficulty⟩

/-- The Run closure of NewEth66Protocol: build the connection, perform the
status exchange, and on success publish the peer to the peers channel exactly
once before entering the dispatch loop; on any exchange error return before
publishing and before the loop. -/
def run (opts : Eth66ProtocolOptions) (sendOk : Bool)
    (readMsg : Option (Nat × Option StatusPacket)) (events : List LoopEvent) : StepResult :=
  let c := initConn opts
  match statusExchange (localStatus opts) sendOk readMsg with
  | .error e => ⟨c, [], some e⟩
  | .ok _ =>
    let r := dispatchLoop c events
    ⟨r.conn, .publishPeer :: r.trace, r.err⟩

/-! Helper lemmas: which parts of the connection state each operation leaves
untouched, and what each operation does to the counters. -/

theorem getBlockData_head (c : Conn) (h : Hash) (a b : Bool) :
    (getBlockData c h a b).conn.head = c.head := by
  cases a <;> cases b <;> simp [getBlockData]

theorem getBlockData_count (c : Conn) (h : Hash) (a b : Bool) :
    (getBlockData c h a b).conn.count = c.count := by
  cases a <;> cases b <;> simp [getBlockData]

theorem getBlockData_oldest (c : Conn) (h : Hash) (a b : Bool) :
    (getBlockData c h a b).conn.oldestBlock = c.oldestBlock := by
  cases a <;> cases b <;> simp [getBlockData]

theorem getBlockData_db (c : Conn) (h : Hash) (a b : Bool) :
    (getBlockData c h a b).conn.db = c.db := by
  cases a <;> cases b <;> simp [getBlockData]

theorem getParentBlock_head (c : Conn) (h : Header) (a b : Bool) :
    (getParentBlock c h a b).conn.head = c.head := by
  unfold getParentBlock
  split
  · rfl
  · split
    · rfl
    · split
      · rfl
      · exact getBlockData_head ..

theorem getParentBlock_count (c : Conn) (h : Header) (a b : Bool) :
    (getParentBlock c h a b).conn.count = c.count := by
  unfold getParentBlock
  split
  · rfl
  · split
    · rfl
    · split
      · rfl
      · exact getBlockData_count ..

theorem newBlockHashesLoop_count (c : Conn) (ps : List (Hash × Nat)) (fs : List (Bool × Bool)) :
    (newBlockHashesLoop c ps fs).1.count = c.count := by
  induction ps generalizing c fs with
  | nil => rfl
  | cons p rest ih =>
    obtain ⟨h, n⟩ := p
    unfold newBlockHashesLoop
    dsimp only
    split
    · rename_i heq
      exact getBlockData_count ..
    · rename_i heq
      simpa [ih] using getBlockData_count ..

theorem blockHeadersLoop_count (c : Conn) (hs : List Header) (fs : List (Bool × Bool)) :
    (blockHeadersLoop c hs fs).1.count = c.count := by
  induction hs generalizing c fs with
  | nil => rfl
  | cons hd rest ih =>
    unfold blockHeadersLoop
    dsimp only
    split
    · exact getParentBlock_count ..
    · simpa [ih] using getParentBlock_count ..

/-! No handler ever publishes the peer: publishPeer appears in a trace only
at the single point in the Run closure, right after a successful exchange. -/

theorem getBlockData_no_publish (c : Conn) (h : Hash) (a b : Bool) :
    Action.publishPeer ∉ (getBlockData c h a b).trace := by
  cases a <;> cases b <;> simp [getBlockData]

theorem getParentBlock_no_publish (c : Conn) (h : Header) (a b : Bool) :
    Action.publishPeer ∉ (getParentBlock c h a b).trace := by
  unfold getParentBlock
  split
  · simp
  · split
    · simp
    · split
      · simp
      · simpa using getBlockData_no_publish c h.parentHash a b

theorem newBlockHashesLoop_no_publish (c : Conn) (ps : List (Hash × Nat))
    (fs : List (Bool × Bool)) : Action.publishPeer ∉ (newBlockHashesLoop c ps fs).2.1 := by
  induction ps generalizing c fs with
  | nil => simp [newBlockHashesLoop]
  | cons p rest ih =>
    obtain ⟨h, n⟩ := p
    unfold newBlockHashesLoop
    dsimp only
    split
    · simpa using getBlockData_no_publish c h _ _
    · simpa using ⟨getBlockData_no_publish c h _ _, ih _ _⟩

theorem blockHeadersLoop_no_publish (c : Conn) (hs : List Header)
    (fs : List (Bool × Bool)) : Action.publishPeer ∉ (blockHeadersLoop c hs fs).2.1 := by
  induction hs generalizing c fs with
  | nil => simp [blockHeadersLoop]
  | cons hd rest ih =>
    unfold blockHeadersLoop
    dsimp only
    split
    · simpa using getParentBlock_no_publish c hd _ _
    · simpa using ⟨getParentBlock_no_publish c hd _ _, ih _ _⟩

theorem dispatch_no_publish (c : Conn) (m : DecodedMsg) :
    Action.publishPeer ∉ (dispatch c m).trace := by
  cases m with
  | newBlockHashes packet flags =>
    dsimp only [dispatch]
    unfold handleNewBlockHashes
    dsimp only
    split
    · simpa using newBlockHashesLoop_no_publish _ packet flags
    · simpa using newBlockHashesLoop_no_publish _ packet flags
  | transactions txs => simp [dispatch, handleTransactions]
  | getBlockHeadersReq rid s =>
    cases s <;> simp [dispatch, handleGetBlockHeaders]
  | blockHeaders rid headers flags =>
    dsimp only [dispatch]
    unfold handleBlockHeaders
    dsimp only
    split
    · simpa using blockHeadersLoop_no_publish _ headers flags
    · simpa using blockHeadersLoop_no_publish _ headers flags
  | getBlockBodiesReq rid hashes s =>
    cases s <;> simp [dispatch, handleGetBlockBodies]
  | blockBodies packet =>
    dsimp only [dispatch]
    unfold handleBlockBodies
    split
    · simp
    · dsimp only
      split <;> simp
  | newBlock packet a b =>
    dsimp only [dispatch]
    unfold handleNewBlock
    dsimp only
    split
    · simpa using getParentBlock_no_publish _ packet.header a b
    · simpa using getParentBlock_no_publish _ packet.header a b
  | newPooledTransactionHashes hashes s =>
    cases s <;> simp [dispatch, handleNewPooledTransactionHashes] <;> split <;> simp
  | getPooledTransactionsReq rid hashes s =>
    cases s <;> simp [dispatch, handleGetPooledTransactions]
  | pooledTransactions rid txs => simp [dispatch, handlePooledTransactions]
  | getReceiptsReq rid s => cases s <;> simp [dispatch, handleGetReceipts]
  | unknownCode code => simp [dispatch]
  | decodeFailure => simp [dispatch]

theorem dispatchLoop_no_publish (c : Conn) (events : List LoopEvent) :
    Action.publishPeer ∉ (dispatchLoop c events).trace := by
  induction events generalizing c with
  | nil => simp [dispatchLoop]
  | cons e rest ih =>
    cases e with
    | readFailure => simp [dispatchLoop]
    | message m discardOk =>
      unfold dispatchLoop
      dsimp only
      split
      · simpa using dispatch_no_publish c m
      · split
        · simpa using dispatch_no_publish c m
        · simpa using ⟨dispatch_no_publish c m, ih _⟩

/-! Counter behaviour of each handler. -/

theorem handleNewBlockHashes_count (c : Conn) (packet : List (Hash × Nat))
    (fs : List (Bool × Bool)) :
    (handleNewBlockHashes c packet fs).conn.count
      = { c.count with blockHashes := c.count.blockHashes + packet.length } := by
  unfold handleNewBlockHashes
  dsimp only
  split
  · simpa using newBlockHashesLoop_count _ packet fs
  · simpa using newBlockHashesLoop_count _ packet fs

theorem handleTransactions_count (c : Conn) (txs : List Nat) :
    (handleTransactions c txs).conn.count
      = { c.count with transactions := c.count.transactions + txs.length } := rfl

theorem handleGetBlockHeaders_count (c : Conn) (rid : Nat) (s : Bool) :
    (handleGetBlockHeaders c rid s).conn.count
      = { c.count with blockHeaderRequests := c.count.blockHeaderRequests + 1 } := by
  cases s <;> rfl

theorem handleBlockHeaders_count (c : Conn) (headers : List Header)
    (fs : List (Bool × Bool)) :
    (handleBlockHeaders c headers fs).conn.count
      = { c.count with blockHeaders := c.count.blockHeaders + headers.length } := by
  unfold handleBlockHeaders
  dsimp only
  split
  · simpa using blockHeadersLoop_count _ headers fs
  · simpa using blockHeadersLoop_count _ headers fs

theorem handleGetBlockBodies_count (c : Conn) (rid : Nat) (hashes : List Hash) (s : Bool) :
    (handleGetBlockBodies c rid hashes s).conn.count
      = { c.count with blockBodiesRequests := c.count.blockBodiesRequests + hashes.length } := by
  cases s <;> rfl

theorem handleBlockBodies_count (c : Conn) (packet : BlockBodiesPacket) :
    (handleBlockBodies c packet).conn.count
      = if packet.bodies.length = 0 then c.count
        else { c.count with blockBodies := c.count.blockBodies + packet.bodies.length } := by
  unfold handleBlockBodies
  rcases hb : packet.bodies with _ | ⟨body, rest⟩
  · simp [hb]
  · dsimp only
    split <;> simp [hb]

theorem handleNewBlock_count (c : Conn) (b : NewBlockPacket) (x y : Bool) :
    (handleNewBlock c b x y).conn.count
      = { c.count with blocks := c.count.blocks + 1 } := by
  unfold handleNewBlock
  dsimp only
  split
  · rw [getParentBlock_count]
    split <;> rfl
  · rw [getParentBlock_count]
    split <;> rfl

theorem handleNewPooledTransactionHashes_count (c : Conn) (hashes : List Hash) (s : Bool) :
    (handleNewPooledTransactionHashes c hashes s).conn.count
      = { c.count with transactionHashes := c.count.transactionHashes + hashes.length } := by
  unfold handleNewPooledTransactionHashes
  dsimp only
  split
  · rfl
  · split <;> rfl

theorem handleGetPooledTransactions_count (c : Conn) (rid : Nat) (hashes : List Hash)
    (s : Bool) :
    (handleGetPooledTransactions c rid hashes s).conn.count
      = { c.count with transactionRequests := c.count.transactionRequests + hashes.length } := by
  cases s <;> rfl

theorem handlePooledTransactions_count (c : Conn) (rid : Nat) (txs : List Nat) :
    (handlePooledTransactions c rid txs).conn.count
      = { c.count with transactions := c.count.transactions + txs.length } := rfl

theorem handleGetReceipts_count (c : Conn) (rid : Nat) (s : Bool) :
    (handleGetReceipts c rid s).conn.count = c.count := by
  cases s <;> rfl

/-- Pointwise order on the counters: every category at most the other. -/
def MessageCount.le (a b : MessageCount) : Prop :=
  a.blocks ≤ b.blocks ∧ a.blockHashes ≤ b.blockHashes ∧
  a.blockHeaderRequests ≤ b.blockHeaderRequests ∧ a.blockHeaders ≤ b.blockHeaders ∧
  a.blockBodiesRequests ≤ b.blockBodiesRequests ∧ a.blockBodies ≤ b.blockBodies ∧
  a.transactionHashes ≤ b.transactionHashes ∧
  a.transactionRequests ≤ b.transactionRequests ∧ a.transactions ≤ b.transactions

/-- Dispatching any decoded message never decreases any counter. -/
theorem dispatch_count_mono (c : Conn) (m : DecodedMsg) :
    MessageCount.le c.count (dispatch c m).conn.count := by
  cases m with
  | newBlockHashes packet flags =>
    simp [dispatch, MessageCount.le, handleNewBlockHashes_count]
  | transactions txs =>
    simp [dispatch, MessageCount.le, handleTransactions_count]
  | getBlockHeadersReq rid s =>
    simp [dispatch, MessageCount.le, handleGetBlockHeaders_count]
  | blockHeaders rid headers flags =>
    simp [dispatch, MessageCount.le, handleBlockHeaders_count]
  | getBlockBodiesReq rid hashes s =>
    simp [dispatch, MessageCount.le, handleGetBlockBodies_count]
  | blockBodies packet =>
    simp only [dispatch, MessageCount.le, handleBlockBodies_count]
    split <;> simp
  | newBlock packet x y =>
    simp [dispatch, MessageCount.le, handleNewBlock_count]
  | newPooledTransactionHashes hashes s =>
    simp [dispatch, MessageCount.le, handleNewPooledTransactionHashes_count]
  | getPooledTransactionsReq rid hashes s =>
    simp [dispatch, MessageCount.le, handleGetPooledTransactions_count]
  | pooledTransactions rid txs =>
    simp [dispatch, MessageCount.le, handlePooledTransactions_count]
  | getReceiptsReq rid s =>
    simp [dispatch, MessageCount.le, handleGetReceipts_count]
  | unknownCode code => simp [dispatch, MessageCount.le]
  | decodeFailure => simp [dispatch, MessageCount.le]

/-! Behaviour of the pending-request scan and of repeated block-data
fetches. -/

theorem removeRequest_none (l : List Request) (rid : Nat)
    (h : ∀ r ∈ l, r.requestID ≠ rid) : removeRequest l rid = (none, l) := by
  induction l with
  | nil => rfl
  | cons r rs ih =>
    unfold removeRequest
    rw [if_neg (h r (by simp))]
    simp [ih fun x hx => h x (by simp [hx])]

theorem removeRequest_first (l₁ : List Request) (r : Request) (l₂ : List Request) (rid : Nat)
    (hr : r.requestID = rid) (hfirst : ∀ x ∈ l₁, x.requestID ≠ rid) :
    removeRequest (l₁ ++ r :: l₂) rid = (some r.hash, l₁ ++ l₂) := by
  induction l₁ with
  | nil => simp [removeRequest, hr]
  | cons x xs ih =>
    rw [List.cons_append]
    simp only [removeRequest]
    rw [if_neg (hfirst x (by simp))]
    simp [ih fun y hy => hfirst y (by simp [hy])]

/-- A run of k block-data fetches on one connection, all sends succeeding:
the state after calling getBlockData once per hash. -/
def runFetches (c : Conn) (hs : List Hash) : Conn :=
  hs.foldl (fun c h => (getBlockData c h true true).conn) c

theorem runFetches_spec (c : Conn) (hs : List Hash) :
    (runFetches c hs).requests
      = c.requests ++ ((List.range' (c.requestNum + 1) hs.length).zip hs).map
          (fun p => ⟨p.1, p.2⟩) ∧
    (runFetches c hs).requestNum = c.requestNum + hs.length := by
  induction hs generalizing c with
  | nil => simp [runFetches]
  | cons h t ih =>
    have hstep : runFetches c (h :: t)
        = runFetches ({ c with
            requestNum := c.requestNum + 1
            requests := c.requests ++ [⟨c.requestNum + 1, h⟩] }) t := rfl
    rw [hstep]
    obtain ⟨ih1, ih2⟩ := ih ({ c with
      requestNum := c.requestNum + 1
      requests := c.requests ++ [⟨c.requestNum + 1, h⟩] })
    constructor
    · rw [ih1]
      simp [List.range'_succ]
    · rw [ih2]
      simp
      omega

theorem getBlockData_no_fetchLog (c : Conn) (h : Hash) (a b : Bool) (ph n : Nat) :
    Action.fetchParentLog ph n ∉ (getBlockData c h a b).trace := by
  cases a <;> cases b <;> simp [getBlockData]

/-! Concrete example values used by witnesses and counterexamples. -/

/-- A database that wants everything persisted and holds no block. -/
def dbAll : Database := ⟨true, true, true, true, fun _ => false⟩

/-- All counters at zero. -/
def countZero : MessageCount := ⟨0, 0, 0, 0, 0, 0, 0, 0, 0⟩

/-- A head block at number 10, total difficulty 100. -/
def headStart : HeadBlock := ⟨5, 100, 10⟩

/-- A fresh connection over dbAll and headStart. -/
def connStart : Conn :=
  { db := dbAll, head := headStart, count := countZero,
    requests := [], requestNum := 0, oldestBlock := none }

/-- A floor header at number 1000. -/
def floorHeader : Header := ⟨1000, 500, 501⟩

/-- The connection after the floor was recorded. -/
def connWithFloor : Conn := { connStart with oldestBlock := some floorHeader }

/-- A header one above the floor, with an unknown parent hash 777. -/
def headerAboveFloor : Header := ⟨1001, 777, 778⟩

/-- A header five above the floor, with an unknown parent hash 444. -/
def headerAboveFloor5 : Header := ⟨1005, 444, 445⟩

/-- A new-block packet whose number exceeds the head but whose total
difficulty does not (Scenario C of the spec). -/
def newBlockLowTd : NewBlockPacket := ⟨⟨12, 3, 4⟩, 90⟩

/-- Session options for the run witnesses. -/
def optsStart : Eth66ProtocolOptions :=
  { db := dbAll, genesisHash := 9, networkID := 137, count := countZero,
    head := headStart, forkIdOf := fun _ => 0 }

/-- A status packet whose network id 1 differs from the local 137. -/
def statusMismatch : StatusPacket := ⟨66, 1, 9, 0, 5, 100⟩

/-! The claims. -/

/-- C1: handleNewBlock replaces the shared head record if and only if the
candidate number is strictly greater and the candidate total difficulty is
strictly greater (big-integer comparison); when either condition fails the
whole record is left unchanged, never partially updated. -/
theorem handleNewBlock_head_update (c : Conn) (b : NewBlockPacket) (x y : Bool) :
    (c.head.number < b.header.number ∧ c.head.totalDifficulty < b.td →
        (handleNewBlock c b x y).conn.head = ⟨b.header.hash, b.td, b.header.number⟩) ∧
    (¬(c.head.number < b.header.number ∧ c.head.totalDifficulty < b.td) →
        (handleNewBlock c b x y).conn.head = c.head) := by
  have hh : (handleNewBlock c b x y).conn.head
      = if c.head.number < b.header.number ∧ c.head.totalDifficulty < b.td
        then ⟨b.header.hash, b.td, b.header.number⟩ else c.head := by
    unfold handleNewBlock
    dsimp only
    split
    · rw [getParentBlock_head]
      split <;> rename_i hP <;> simp [hP]
    · rw [getParentBlock_head]
      split <;> rename_i hP <;> simp [hP]
  exact ⟨fun hP => by rw [hh, if_pos hP], fun hP => by rw [hh, if_neg hP]⟩

/-- Witness for C1, Scenario C of the spec: a candidate with a greater number
but a smaller total difficulty leaves the head record unchanged. -/
theorem handleNewBlock_head_update_witness :
    (handleNewBlock connStart newBlockLowTd true true).conn.head = connStart.head :=
  (handleNewBlock_head_update connStart newBlockLowTd true true).2 (by decide)

/-- C7: a block-bodies response with an empty payload is silently ignored:
the handler returns success and the whole connection state, counters and
pending-request sequence included, is exactly unchanged, with no effects. -/
theorem handleBlockBodies_empty_payload (c : Conn) (rid : Nat) :
    handleBlockBodies c ⟨rid, []⟩ = ⟨c, [], none⟩ := rfl

/-- C10: if the get-headers send fails, getBlockData returns the error with
the request counter and pending sequence unchanged (no id allocated, nothing
appended); the pending entry is appended after the headers send succeeds and
before the get-bodies send, so a failing bodies send still leaves the new
entry in place. -/
theorem getBlockData_send_failure (c : Conn) (h : Hash) (y : Bool) :
    getBlockData c h false y = ⟨c, [], some .sendErr⟩ ∧
    getBlockData c h true false
      = ⟨{ c with
            requestNum := c.requestNum + 1
            requests := c.requests ++ [⟨c.requestNum + 1, h⟩] },
          [.sendGetBlockHeaders h 1], some .sendErr⟩ :=
  ⟨rfl, rfl⟩

/-- C3: for a non-empty bodies response, the pending sequence is scanned from
the front for the first entry whose id equals the response id; on a match
exactly that entry is removed and the body is written under its recorded
hash; with no match the pending sequence is unchanged, a warning is logged,
the body is dropped, and the handler still returns success. -/
theorem handleBlockBodies_correlation (c : Conn) (rid : Nat) (body : Nat)
    (more : List Nat) :
    ((∀ r ∈ c.requests, r.requestID ≠ rid) →
        (handleBlockBodies c ⟨rid, body :: more⟩).conn.requests = c.requests ∧
        (handleBlockBodies c ⟨rid, body :: more⟩).trace = [.warnNoHash] ∧
        (handleBlockBodies c ⟨rid, body :: more⟩).err = none) ∧
    (∀ l₁ r l₂, c.requests = l₁ ++ r :: l₂ → r.requestID = rid →
        (∀ x ∈ l₁, x.requestID ≠ rid) →
        (handleBlockBodies c ⟨rid, body :: more⟩).conn.requests = l₁ ++ l₂ ∧
        (handleBlockBodies c ⟨rid, body :: more⟩).trace = [.writeBlockBody body r.hash] ∧
        (handleBlockBodies c ⟨rid, body :: more⟩).err = none) := by
  constructor
  · intro hno
    have hrm := removeRequest_none c.requests rid hno
    unfold handleBlockBodies
    dsimp only
    rw [hrm]
    exact ⟨rfl, rfl, rfl⟩
  · intro l₁ r l₂ hsplit hr hfirst
    have hrm := removeRequest_first l₁ r l₂ rid hr hfirst
    unfold handleBlockBodies
    dsimp only
    rw [hsplit, hrm]
    exact ⟨rfl, rfl, rfl⟩

/-- Witness for C3: a pending list with a decoy entry in front; the matching
response removes exactly the matching entry and writes under hash 42, and an
unknown id leaves the pending list unchanged. -/
theorem handleBlockBodies_correlation_witness :
    (handleBlockBodies
        ({ connStart with requests := [⟨3, 30⟩, ⟨7, 42⟩, ⟨9, 90⟩] })
        ⟨7, [55, 56]⟩).conn.requests = [⟨3, 30⟩, ⟨9, 90⟩] ∧
    (handleBlockBodies
        ({ connStart with requests := [⟨3, 30⟩, ⟨7, 42⟩, ⟨9, 90⟩] })
        ⟨7, [55, 56]⟩).trace = [.writeBlockBody 55 42] ∧
    (handleBlockBodies
        ({ connStart with requests := [⟨3, 30⟩, ⟨7, 42⟩, ⟨9, 90⟩] })
        ⟨8, [55, 56]⟩).conn.requests = [⟨3, 30⟩, ⟨7, 42⟩, ⟨9, 90⟩] := by
  have hm := (handleBlockBodies_correlation
      ({ connStart with requests := [⟨3, 30⟩, ⟨7, 42⟩, ⟨9, 90⟩] }) 7 55 [56]).2
      [⟨3, 30⟩] ⟨7, 42⟩ [⟨9, 90⟩] rfl rfl (by decide)
  have hn := (handleBlockBodies_correlation
      ({ connStart with requests := [⟨3, 30⟩, ⟨7, 42⟩, ⟨9, 90⟩] }) 8 55 [56]).1
      (by decide)
  exact ⟨hm.1, hm.2.1, hn.1⟩

/-- C9: when a non-empty bodies response matches a pending entry, only the
first body of the payload is written to storage (under the matched hash); the
bodies counter is still incremented by the full item count, and no other body
is ever forwarded. -/
theorem handleBlockBodies_first_body_only (c : Conn) (rid : Nat) (body : Nat)
    (more : List Nat) (l₁ : List Request) (r : Request) (l₂ : List Request)
    (hsplit : c.requests = l₁ ++ r :: l₂) (hr : r.requestID = rid)
    (hfirst : ∀ x ∈ l₁, x.requestID ≠ rid) :
    (handleBlockBodies c ⟨rid, body :: more⟩).trace = [.writeBlockBody body r.hash] ∧
    (handleBlockBodies c ⟨rid, body :: more⟩).conn.count.blockBodies
      = c.count.blockBodies + (body :: more).length ∧
    (∀ b2 h2, Action.writeBlockBody b2 h2 ∈ (handleBlockBodies c ⟨rid, body :: more⟩).trace →
        b2 = body ∧ h2 = r.hash) := by
  have hrm := removeRequest_first l₁ r l₂ rid hr hfirst
  unfold handleBlockBodies
  dsimp only
  rw [hsplit, hrm]
  refine ⟨rfl, by simp, ?_⟩
  intro b2 h2 hmem
  simpa using List.mem_singleton.mp hmem

/-- Witness for C9: a three-body response matching the only pending entry
writes just the first body and counts all three. -/
theorem handleBlockBodies_first_body_only_witness :
    (handleBlockBodies ({ connStart with requests := [⟨1, 42⟩] })
        ⟨1, [7, 8, 9]⟩).trace = [.writeBlockBody 7 42] ∧
    (handleBlockBodies ({ connStart with requests := [⟨1, 42⟩] })
        ⟨1, [7, 8, 9]⟩).conn.count.blockBodies = 3 := by
  have h := handleBlockBodies_first_body_only
      ({ connStart with requests := [⟨1, 42⟩] }) 1 7 [8, 9]
      [] ⟨1, 42⟩ [] rfl rfl (by simp)
  exact ⟨h.1, h.2.1⟩

/-- C2 counterexample: with the floor at number 1000, a header at number 1001
whose parent is unknown to storage makes the policy issue a backfill request
for the ancestor at number 1000 — exactly the floor, not strictly above it,
refuting the claim that no request is ever issued at or below the floor. -/
theorem backfillFloor_counterexample :
    connWithFloor.oldestBlock = some floorHeader ∧
    floorHeader.number = 1000 ∧
    (getParentBlock connWithFloor headerAboveFloor true true).trace
      = [.fetchParentLog 777 1000, .sendGetBlockHeaders 777 1,
         .sendGetBlockBodies 1 [777]] ∧
    1000 ≤ floorHeader.number := by
  refine ⟨rfl, rfl, ?_, by decide⟩
  rfl

/-- C2 (amended): with the floor at number F, every backfill request the
policy issues targets the parent of a header whose number strictly exceeds F,
so the requested ancestor number (header number minus one, as the source
itself logs) is at least F — never strictly below the floor, though it can be
the floor itself; the floor header is never changed by the policy once set. -/
theorem backfillFloor_respected (c : Conn) (hd : Header) (a b : Bool)
    (fl : Header) (hfloor : c.oldestBlock = some fl) :
    (∀ ph n, Action.fetchParentLog ph n ∈ (getParentBlock c hd a b).trace →
        fl.number < hd.number ∧ fl.number ≤ n) ∧
    (getParentBlock c hd a b).conn.oldestBlock = some fl := by
  unfold getParentBlock
  rw [hfloor]
  dsimp only
  split
  · exact ⟨fun ph n hmem => absurd hmem (by simp), hfloor⟩
  · split
    · exact ⟨fun ph n hmem => absurd hmem (by simp), hfloor⟩
    · rename_i hcond
      rw [Bool.or_eq_true, not_or] at hcond
      have hlt : fl.number < hd.number := by
        rcases hcond with ⟨-, h2⟩
        simpa using h2
      constructor
      · intro ph n hmem
        rcases List.mem_cons.mp hmem with hhead | htail
        · have hn : ph = hd.parentHash ∧ n = hd.number - 1 := by
            simpa using hhead
          obtain ⟨-, hn2⟩ := hn
          subst hn2
          exact ⟨hlt, by omega⟩
        · exact absurd htail (getBlockData_no_fetchLog _ _ _ _ _ _)
      · rw [getBlockData_oldest, hfloor]

/-- Witness for C2 (amended): the request issued for the header at 1001 over
the floor at 1000 targets ancestor number 1000, which is at least the floor,
and the floor is unchanged. -/
theorem backfillFloor_respected_witness :
    floorHeader.number < headerAboveFloor.number ∧ floorHeader.number ≤ 1000 ∧
    (getParentBlock connWithFloor headerAboveFloor true true).conn.oldestBlock
      = some floorHeader := by
  have h := backfillFloor_respected connWithFloor headerAboveFloor true true
      floorHeader rfl
  have hmem : Action.fetchParentLog 777 1000
      ∈ (getParentBlock connWithFloor headerAboveFloor true true).trace := by decide
  exact ⟨(h.1 777 1000 hmem).1, (h.1 777 1000 hmem).2, h.2⟩

/-- C4: the backfill policy in full: a no-op when the database declines
blocks or block events; the first header becomes the floor with no request;
a known parent or a number not strictly above the floor issues nothing;
otherwise exactly one getBlockData request is issued for the parent hash. -/
theorem getParentBlock_policy (c : Conn) (hd : Header) (a b : Bool) :
    (c.db.shouldWriteBlocks = false ∨ c.db.shouldWriteBlockEvents = false →
        getParentBlock c hd a b = ⟨c, [], none⟩) ∧
    (c.db.shouldWriteBlocks = true → c.db.shouldWriteBlockEvents = true →
        c.oldestBlock = none →
        getParentBlock c hd a b = ⟨{ c with oldestBlock := some hd }, [], none⟩) ∧
    (∀ fl, c.db.shouldWriteBlocks = true → c.db.shouldWriteBlockEvents = true →
        c.oldestBlock = some fl →
        c.db.hasBlock hd.parentHash = true ∨ hd.number ≤ fl.number →
        getParentBlock c hd a b = ⟨c, [], none⟩) ∧
    (∀ fl, c.db.shouldWriteBlocks = true → c.db.shouldWriteBlockEvents = true →
        c.oldestBlock = some fl →
        c.db.hasBlock hd.parentHash = false → fl.number < hd.number →
        getParentBlock c hd true true
          = ⟨{ c with
                requestNum := c.requestNum + 1
                requests := c.requests ++ [⟨c.requestNum + 1, hd.parentHash⟩] },
              [.fetchParentLog hd.parentHash (hd.number - 1),
               .sendGetBlockHeaders hd.parentHash 1,
               .sendGetBlockBodies (c.requestNum + 1) [hd.parentHash]], none⟩) := by
  refine ⟨?_, ?_, ?_, ?_⟩
  · intro hcap
    unfold getParentBlock
    rcases hcap with h1 | h1 <;> rw [if_pos] <;> simp [h1]
  · intro h1 h2 hnone
    unfold getParentBlock
    rw [if_neg (by simp [h1, h2]), hnone]
  · intro fl h1 h2 hfl hstop
    unfold getParentBlock
    rw [if_neg (by simp [h1, h2]), hfl]
    dsimp only
    rw [if_pos]
    rcases hstop with h3 | h3
    · simp [h3]
    · simp [h3]
  · intro fl h1 h2 hfl h3 hlt
    unfold getParentBlock
    rw [if_neg (by simp [h1, h2]), hfl]
    dsimp only
    rw [if_neg (by simp [h3]; omega)]
    simp [getBlockData, hfl]

/-- Witness for C4, Scenario A: a fresh connection records header 1000 as the
floor with no request; a later header 1005 with unknown parent 444 issues
exactly one request, for hash 444 at number 1004, with request id 1. -/
theorem getParentBlock_policy_witness :
    getParentBlock connStart floorHeader true true
      = ⟨{ connStart with oldestBlock := some floorHeader }, [], none⟩ ∧
    getParentBlock connWithFloor headerAboveFloor5 true true
      = ⟨{ connWithFloor with
            requestNum := 1
            requests := [⟨1, 444⟩] },
          [.fetchParentLog 444 1004, .sendGetBlockHeaders 444 1,
           .sendGetBlockBodies 1 [444]], none⟩ := by
  constructor
  · exact (getParentBlock_policy connStart floorHeader true true).2.1 rfl rfl rfl
  · have h := (getParentBlock_policy connWithFloor headerAboveFloor5 true true).2.2.2
        floorHeader rfl rfl rfl rfl (by decide)
    simpa using h

/-- C5: issuing k block-data fetches on one connection allocates exactly the
request identifiers 1, 2, ..., k: pairwise distinct, strictly increasing,
starting at 1, and never reused. -/
theorem requestIds_distinct_increasing (opts : Eth66ProtocolOptions) (hs : List Hash) :
    (runFetches (initConn opts) hs).requests.map Request.requestID
      = List.range' 1 hs.length ∧
    ((runFetches (initConn opts) hs).requests.map Request.requestID).Nodup ∧
    List.Pairwise (· < ·)
      ((runFetches (initConn opts) hs).requests.map Request.requestID) := by
  have h := (runFetches_spec (initConn opts) hs).1
  have hmap : (runFetches (initConn opts) hs).requests.map Request.requestID
      = List.range' 1 hs.length := by
    rw [h]
    simp only [initConn, List.nil_append, List.map_map]
    rw [show (Request.requestID ∘ fun p : Nat × Hash => (⟨p.1, p.2⟩ : Request))
        = Prod.fst from rfl]
    rw [List.map_fst_zip _ _ (by simp)]
  exact ⟨hmap, hmap ▸ List.nodup_range' 1 hs.length,
    hmap ▸ List.pairwise_lt_range' 1 hs.length⟩

/-- C8: every handler of a counted category increments exactly that counter
by exactly the item count of the decoded message (block hashes,
transactions, headers, bodies, blocks), and dispatching any message never
decreases any counter. -/
theorem counters_increment_by_item_count (c : Conn) (packet : List (Hash × Nat))
    (fs : List (Bool × Bool)) (txs : List Nat) (headers : List Header)
    (hfs : List (Bool × Bool)) (rid : Nat) (body : Nat) (more : List Nat)
    (b : NewBlockPacket) (x y : Bool) (m : DecodedMsg) :
    (handleNewBlockHashes c packet fs).conn.count
      = { c.count with blockHashes := c.count.blockHashes + packet.length } ∧
    (handleTransactions c txs).conn.count
      = { c.count with transactions := c.count.transactions + txs.length } ∧
    (handleBlockHeaders c headers hfs).conn.count
      = { c.count with blockHeaders := c.count.blockHeaders + headers.length } ∧
    (handleBlockBodies c ⟨rid, body :: more⟩).conn.count
      = { c.count with blockBodies := c.count.blockBodies + (body :: more).length } ∧
    (handleNewBlock c b x y).conn.count
      = { c.count with blocks := c.count.blocks + 1 } ∧
    MessageCount.le c.count (dispatch c m).conn.count := by
  refine ⟨handleNewBlockHashes_count c packet fs, handleTransactions_count c txs,
    handleBlockHeaders_count c headers hfs, ?_, handleNewBlock_count c b x y,
    dispatch_count_mono c m⟩
  simpa using handleBlockBodies_count c ⟨rid, body :: more⟩

/-- A status exchange whose reply decodes to a packet with a different
network id always fails, whichever of the three checks fires first. -/
theorem statusExchange_mismatch (p : StatusPacket) (sendOk : Bool) (code : Nat)
    (st : StatusPacket) (hne : st.networkID ≠ p.networkID) :
    statusExchange p sendOk (some (code, some st)) = .error .sendErr ∨
    statusExchange p sendOk (some (code, some st)) = .error .wrongCode ∨
    statusExchange p sendOk (some (code, some st)) = .error .uselessPeer := by
  unfold statusExchange
  cases sendOk
  · left; rfl
  · dsimp only
    by_cases hc : code = 0
    · subst hc
      rw [if_neg (by simp)]
      right; right
      exact if_pos hne
    · rw [if_pos hc]
      right; left; rfl

/-- C6: the peer identity is published exactly once per connection, only
after a successful status exchange and before any dispatched message; a
status reply with a mismatched network id terminates the connection with no
publication and an empty trace, before the dispatch loop runs. -/
theorem publish_once_after_handshake (opts : Eth66ProtocolOptions) (sendOk : Bool)
    (readMsg : Option (Nat × Option StatusPacket)) (events : List LoopEvent) :
    ((run opts sendOk readMsg events).trace.count Action.publishPeer
      = if (statusExchange (localStatus opts) sendOk readMsg).isOk then 1 else 0) ∧
    (∀ code st, readMsg = some (code, some st) → st.networkID ≠ opts.networkID →
        (run opts sendOk readMsg events).trace = [] ∧
        (run opts sendOk readMsg events).err.isSome = true) ∧
    ((statusExchange (localStatus opts) sendOk readMsg).isOk = true →
        ∃ tailActs, (run opts sendOk readMsg events).trace
            = Action.publishPeer :: tailActs ∧ Action.publishPeer ∉ tailActs) := by
  have hmm : ∀ code st, readMsg = some (code, some st) →
      st.networkID ≠ opts.networkID →
      ∃ e, statusExchange (localStatus opts) sendOk readMsg = .error e := by
    intro code st hr hne
    subst hr
    rcases statusExchange_mismatch (localStatus opts) sendOk code st
        (by simpa [localStatus] using hne) with h | h | h
    exacts [⟨_, h⟩, ⟨_, h⟩, ⟨_, h⟩]
  rcases hex : statusExchange (localStatus opts) sendOk readMsg with e | st
  case error =>
    have hrun : run opts sendOk readMsg events = ⟨initConn opts, [], some e⟩ := by
      unfold run
      rw [hex]
    refine ⟨by simp [hrun, Except.isOk, Except.toBool], ?_, ?_⟩
    · intro code st hr hne
      rw [hrun]
      exact ⟨rfl, rfl⟩
    · intro hok
      simp [Except.isOk, Except.toBool] at hok
  case ok =>
    have hrun : run opts sendOk readMsg events
        = ⟨(dispatchLoop (initConn opts) events).conn,
            .publishPeer :: (dispatchLoop (initConn opts) events).trace,
            (dispatchLoop (initConn opts) events).err⟩ := by
      unfold run
      rw [hex]
    have hzero : ((dispatchLoop (initConn opts) events).trace).count Action.publishPeer = 0 :=
      List.count_eq_zero.mpr (dispatchLoop_no_publish _ _)
    refine ⟨?_, ?_, ?_⟩
    · rw [hrun]
      simp [Except.isOk, Except.toBool, List.count_cons, hzero]
    · intro code st2 hr hne
      obtain ⟨e, he⟩ := hmm code st2 hr hne
      rw [hex] at he
      exact absurd he (by simp)
    · intro _
      exact ⟨(dispatchLoop (initConn opts) events).trace, by rw [hrun],
        dispatchLoop_no_publish _ _⟩

/-- Witness for C6: with network id 137 locally and a status reply carrying
network id 1, the run produces no actions at all and terminates with an
error before publishing or dispatching. -/
theorem publish_once_after_handshake_witness :
    (run optsStart true (some (0, some statusMismatch)) []).trace = [] ∧
    (run optsStart true (some (0, some statusMismatch)) []).err.isSome = true := by
  exact (publish_once_after_handshake optsStart true
      (some (0, some statusMismatch)) []).2.1 0 statusMismatch rfl (by decide)

end PolygonP2P
